import Mathlib

/-!
Verification of the Lua scripting core of the discord-bot repository.

The Go sources are shallowly embedded: pure functions become Lean
functions, stateful code becomes explicit state passing, machine
integers (time.Duration, timestamps in nanoseconds) become Int, and
Go maps become insertion-ordered association lists (Go map iteration
order is unspecified; the association-list order is a canonical
determinization, and all map-content statements are order-independent).
External collaborators that the code only composes with (the SQL layer,
which returns a stored string unchanged, and the Go standard JSON codec,
which round-trips a marshalled document) are modelled at the document
level, exactly as the spec scopes them.
-/

namespace DiscordBot

/-- Embedding of gopher-lua LValue as used by kv_store.go and util.go.
Numbers are restricted to integral values (Int): the repository code
only ever formats numbers via LValue.String, whose %.14g rendering of
an integral float is its decimal notation, which is what the embedding
uses. Lua functions never occur inside stored tables, so they are
omitted from this value type; callbacks are modelled separately as
opaque handles. -/
inductive LuaValue where
  | lnil : LuaValue
  | lbool (b : Bool) : LuaValue
  | lnum (n : Int) : LuaValue
  | lstr (s : String) : LuaValue
  | ltable (entries : List (LuaValue × LuaValue)) : LuaValue


/-- LValue.String of gopher-lua, restricted to the values above.
A table formats as an address-dependent string in Go; it is rendered
opaquely here, and no theorem below depends on that rendering. -/
def luaValueString : LuaValue → String
  | .lnil => "nil"
  | .lbool true => "true"
  | .lbool false => "false"
  | .lnum n => toString n
  | .lstr s => s
  | .ltable _ => "table"

/-- Go values as produced by json.Unmarshal into interface values and
consumed by goValueToLua in kv_store.go: strings, float64 numbers
(integral here, see LuaValue), booleans, null, JSON objects
(map of string to value) and JSON arrays. -/
inductive GoVal where
  | gstr (s : String) : GoVal
  | gnum (n : Int) : GoVal
  | gbool (b : Bool) : GoVal
  | gnull : GoVal
  | gmap (fields : List (String × GoVal)) : GoVal
  | garr (elems : List GoVal) : GoVal


/-- Go map assignment m[k] = v on the association-list model:
replace the binding in place if the key is present, append otherwise. -/
def mapInsert : List (String × GoVal) → String → GoVal → List (String × GoVal)
  | [], k, v => [(k, v)]
  | (k2, v2) :: rest, k, v =>
      if k2 = k then (k2, v) :: rest else (k2, v2) :: mapInsert rest k v

mutual

/-- The ForEach loop body of luaTableToMap in kv_store.go, folded over
the entries of the table in iteration order with the Go map as
accumulator: result[key.String()] is the converted value, where a
table value recurses and every other value is stringified. -/
def luaTableToMapAux : List (LuaValue × LuaValue) → List (String × GoVal) →
    List (String × GoVal)
  | [], acc => acc
  | (k, v) :: rest, acc =>
      luaTableToMapAux rest (mapInsert acc (luaValueString k) (luaEntryToGo v))

/-- The switch statement inside the ForEach body of luaTableToMap:
a nested LTable is converted recursively, anything else becomes its
LValue.String rendering. -/
def luaEntryToGo : LuaValue → GoVal
  | .ltable es => .gmap (luaTableToMapAux es [])
  | .lnil => .gstr (luaValueString .lnil)
  | .lbool b => .gstr (luaValueString (.lbool b))
  | .lnum n => .gstr (luaValueString (.lnum n))
  | .lstr s => .gstr (luaValueString (.lstr s))

end

/-- luaTableToMap of kv_store.go: convert a Lua table to a Go map. -/
def luaTableToMap (es : List (LuaValue × LuaValue)) : List (String × GoVal) :=
  luaTableToMapAux es []

mutual

/-- goValueToLua of kv_store.go (the version in src/internal/lua, which
has no case for arrays): maps become tables keyed by RawSetString,
strings, numbers, booleans and null map to the corresponding Lua
values, and anything else (an array) hits the default branch and
becomes the string "unsupported". -/
def goValueToLua : GoVal → LuaValue
  | .gmap fields => .ltable (goFieldsToLua fields)
  | .gstr s => .lstr s
  | .gnum n => .lnum n
  | .gbool b => .lbool b
  | .gnull => .lnil
  | .garr _ => .lstr "unsupported"

/-- The range loop over the Go map inside goValueToLua, in the
canonical (insertion) order of the association list. -/
def goFieldsToLua : List (String × GoVal) → List (LuaValue × LuaValue)
  | [] => []
  | (k, v) :: rest => (.lstr k, goValueToLua v) :: goFieldsToLua rest

end

/-- StoreSet of a table value followed by StoreGet on the same key
(kv_store.go): StoreSet writes json.Marshal(luaTableToMap tbl) into the
kv_store row; StoreGet reads the same string back, json.Unmarshal
succeeds on it (it is a marshalled object document) and yields the same
document, and goValueToLua reconstructs a Lua value. The SQL layer and
the JSON codec are external collaborators that round-trip the document,
so the composition is goValueToLua applied to the marshalled map. -/
def storeTableRoundTrip (es : List (LuaValue × LuaValue)) : LuaValue :=
  goValueToLua (.gmap (luaTableToMap es))

/-- The strings under which Go indexes the entries of one table level. -/
def keyStrings (es : List (LuaValue × LuaValue)) : List String :=
  es.map (fun p => luaValueString p.1)

/-- The keys of the association-list model of a Go map. -/
def mapKeys (m : List (String × GoVal)) : List String := m.map Prod.fst

/-- No two entries of this table level collide on their Go map key. -/
def keysNodupB : List (LuaValue × LuaValue) → Bool
  | [] => true
  | (k, _) :: rest =>
      decide (luaValueString k ∉ keyStrings rest) && keysNodupB rest

mutual

/-- A Lua value whose round trip through the store is lossless: a
string, or a table all of whose keys are strings, whose keys do not
collide, and whose values are again such values. -/
def stringPureVal : LuaValue → Bool
  | .lstr _ => true
  | .ltable es => keysNodupB es && stringPureEntries es
  | .lnil => false
  | .lbool _ => false
  | .lnum _ => false

/-- Entry-list form of stringPureVal: every key is a string literal and
every value is string-pure. -/
def stringPureEntries : List (LuaValue × LuaValue) → Bool
  | [] => true
  | (k, v) :: rest =>
      (match k with
        | .lstr _ => true
        | _ => false) && stringPureVal v && stringPureEntries rest

end

/-- A concrete nested string-pure table used to witness C1. -/
def c1SampleTable : List (LuaValue × LuaValue) :=
  [(LuaValue.lstr "name", LuaValue.lstr "test"),
   (LuaValue.lstr "inner",
      LuaValue.ltable [(LuaValue.lstr "nested", LuaValue.lstr "value")])]

/-! ## JSON decoding (util.go) -/

/-- json.Unmarshal(data, ptr) where ptr points to a map of string to
interface values, as called by jsonDecode in util.go. The stdlib parse
layer is the external JSON codec, so the argument is the parsed
document (none when the string is not valid JSON). Unmarshal fails on
valid JSON whose top level is not an object or null; the JSON literal
null succeeds and leaves the map nil (the inner none); an object
succeeds with its fields. -/
def unmarshalIntoMap : Option GoVal → Option (Option (List (String × GoVal)))
  | none => none
  | some (.gmap fields) => some (some fields)
  | some .gnull => some none
  | some (.gstr _) => none
  | some (.gnum _) => none
  | some (.gbool _) => none
  | some (.garr _) => none

/-- jsonDecode of util.go: Unmarshal the string into a map of string to
interface values; on error return nil plus the error (the json_decode
host function in functions.go then logs it and pushes nil to the
script); on success convert the map with goValueToLua. A nil map (from
the literal null) behaves exactly like an empty map in both the type
switch and the range loop of goValueToLua. -/
def jsonDecode (parsed : Option GoVal) : Option LuaValue :=
  match unmarshalIntoMap parsed with
  | none => none
  | some none => some (goValueToLua (.gmap []))
  | some (some fields) => some (goValueToLua (.gmap fields))

/-! ## Path helpers (path/filepath as used by the loader and watcher) -/

/-- Scan of filepath.Ext from the end of the path: collect characters
until the last dot (returning the dot-suffix) and stop without an
extension at a path separator or at the start. -/
def filepathExtAux : List Char → List Char → Option String
  | [], _ => none
  | c :: rest, acc =>
      if c = '/' then none
      else if c = '.' then some (String.mk ('.' :: acc))
      else filepathExtAux rest (c :: acc)

/-- filepath.Ext: the suffix beginning at the final dot in the final
path element; empty when there is no dot. -/
def filepathExt (path : String) : String :=
  (filepathExtAux path.toList.reverse []).getD ""

/-- Scan for filepath.Base from the end of the path: the characters
after the last separator. -/
def filepathBaseAux : List Char → List Char → String
  | [], acc => String.mk acc
  | c :: rest, acc =>
      if c = '/' then String.mk acc else filepathBaseAux rest (c :: acc)

/-- filepath.Base restricted to the slash-separated paths the engine
passes it (no trailing separators): the last path element. -/
def filepathBase (path : String) : String :=
  filepathBaseAux path.toList.reverse []

/-- strings.HasPrefix(name, dot) for the one-character dot marker: the
first character of the name is a dot. -/
def beginsWithDot (s : String) : Bool :=
  match s.toList with
  | [] => false
  | c :: _ => c = '.'

/-- shouldProcessFile of watcher.go: only non-hidden .lua files are
processed by the watcher. -/
def shouldProcessFile (filename : String) : Bool :=
  let base := filepathBase filename
  !(beginsWithDot base) && filepathExt base = ".lua"

/-- LoadScripts of the lifecycle manager (the current copy, kept with
the LuaScript type): iterate the directory listing in order, skip files
whose extension is not .lua, attempt loadScript on the rest, and on a
per-file error log and continue with the next file. Reading, compiling
and executing a file is external, so the per-file outcome is the
parameter loadOk; the result is the pair of the attempted files and the
successfully loaded ones, in directory order. -/
def loadScriptsFrom (loadOk : String → Bool) : List String →
    List String × List String
  | [] => ([], [])
  | f :: rest =>
      let r := loadScriptsFrom loadOk rest
      if filepathExt f = ".lua" then
        (f :: r.1, if loadOk f then f :: r.2 else r.2)
      else r

/-! ## Engine data model (engine.go, part of the lua package) -/

/-- Opaque handle standing for a Lua function value (a pointer in Go). -/
abbrev LuaFnRef := Nat

/-- HookInfo of engine.go: a callback and its owning script. Script
identity is the script name: the scripts map is keyed by name, so at
most one loaded script object carries a given name at any time and the
pointer comparisons in the source coincide with name equality. -/
structure HookInfo where
  fn : LuaFnRef
  script : String
deriving Repr, DecidableEq

/-- Command of engine.go. Durations and timestamps are nanosecond
counts (time.Duration, time.Time); the zero time is 0. -/
structure Command where
  name : String
  description : String
  callback : HookInfo
  cooldown : Int
  lastUsed : Int
deriving Repr, DecidableEq

/-- LuaScript of the lifecycle manager: name, source path, optional
on_unload callback, and the names of the commands it registered. The
isolated environment table is interpreter state and is not modelled. -/
structure LuaScript where
  name : String
  path : String
  onUnload : Option LuaFnRef
  commands : List String
deriving Repr, DecidableEq

/-- TimerEntry of the timer manager. The underlying platform timer is
not modelled; data is the opaque user value. -/
structure TimerEntry where
  id : String
  duration : Int
  callback : LuaFnRef
  data : LuaValue
  script : String
  active : Bool
  repeating : Bool

/-- Go map read m[k] on the association-list model. -/
def lookupStr {α : Type} : List (String × α) → String → Option α
  | [], _ => none
  | (k, v) :: rest, key => if k = key then some v else lookupStr rest key

/-- Go map assignment m[k] = v on the association-list model. -/
def setStr {α : Type} : List (String × α) → String → α → List (String × α)
  | [], key, v => [(key, v)]
  | (k, v2) :: rest, key, v =>
      if k = key then (k, v) :: rest else (k, v2) :: setStr rest key v

/-- Go map delete(m, k) on the association-list model. -/
def eraseStr {α : Type} : List (String × α) → String → List (String × α)
  | [], _ => []
  | (k, v) :: rest, key => if k = key then rest else (k, v) :: eraseStr rest key

/-- The keys of an association-list map. -/
def keysOf {α : Type} (m : List (String × α)) : List String := m.map Prod.fst

/-- The mutable registries of the Engine that the claims concern:
hooks (event type to registration list), loaded scripts, commands, and
the timer manager entry map. -/
structure EngineState where
  hooks : List (String × List HookInfo)
  scripts : List (String × LuaScript)
  commands : List (String × Command)
  timers : List (String × TimerEntry)

/-- The registry maps hold no duplicate keys: always true of a Go map,
an invariant of the association-list model. -/
structure WFState (st : EngineState) : Prop where
  scriptsNodup : (keysOf st.scripts).Nodup
  commandsNodup : (keysOf st.commands).Nodup
  timersNodup : (keysOf st.timers).Nodup

/-! ## Events (events.go) -/

/-- The closed Event variant of events.go. Callback-carrying events
hold the already-resolved HookInfo, and data fields hold the Lua tables
the engine built. -/
inductive Event where
  | botEvent (eventType : String) (data : LuaValue)
  | timerEvent (timerID : String) (data : LuaValue) (callback : HookInfo)
  | commandEvent (commandName : String) (data : LuaValue) (callback : HookInfo)
  | scriptEvent (action : String) (scriptName : String)

/-- Event.Type() of events.go, the event kind used in log lines. -/
def Event.type : Event → String
  | .botEvent t _ => t
  | .timerEvent id _ _ => "timer(" ++ id ++ ")"
  | .commandEvent n _ _ => "command(" ++ n ++ ")"
  | .scriptEvent a _ => "script_" ++ a

/-- Observable actions in program order: the dispatcher entering and
leaving one event, one callback execution starting and ending inside
the interpreter, a log line, and the registry removals performed by
unloadScript. Used to state ordering properties of the dispatcher and
of unload. -/
inductive Mark where
  | eventStart (e : Event)
  | eventEnd (e : Event)
  | callStart (cb : HookInfo)
  | callEnd (cb : HookInfo)
  | logLine (s : String)
  | removedHooksOf (script : String)
  | removedTimersOf (script : String)
  | removedCommand (name : String)
  | removedScript (name : String)

/-- callLuaFunction of engine.go: set currentScript, perform one
protected call into the interpreter (opaque here; an error is caught
and logged at this boundary), reset currentScript. Its observable
trace is exactly one callback execution. -/
def callLuaFunction (fn : HookInfo) (_data : LuaValue) : List Mark :=
  [.callStart fn, .callEnd fn]

/-- The read e.hooks[t]: a missing key yields the empty (nil) list. -/
def hooksFor (st : EngineState) (t : String) : List HookInfo :=
  (lookupStr st.hooks t).getD []

/-! ## Script lifecycle (the manager kept with the LuaScript type) -/

/-- removeHooks of the lifecycle manager: for every event type, keep in
place exactly the registrations whose owning script differs, preserving
relative order (the source filters into the reused slice storage). -/
def removeHooks (hooks : List (String × List HookInfo)) (script : String) :
    List (String × List HookInfo) :=
  hooks.map (fun p => (p.1, p.2.filter (fun h => h.script ≠ script)))

/-- UnregisterScriptTimers of the timer manager: first collect, in map
order, the ids of every entry owned by the script, then unregister each
collected id, which deletes it from the entry map (and stops the
platform timer, not modelled). -/
def unregisterScriptTimers (timers : List (String × TimerEntry))
    (scriptName : String) : List (String × TimerEntry) :=
  let target := (timers.filter (fun p => p.2.script = scriptName)).map Prod.fst
  target.foldl (fun ts id => eraseStr ts id) timers

/-- unloadScript of the lifecycle manager: an unknown name is a logged
no-op; otherwise the on_unload callback, if registered, is dispatched
first through callLuaFunction, and only then are the script hooks, its
timers, each command name it registered, and finally the script map
entry removed. The removal marks record the order of those
mutations. -/
def unloadScript (st : EngineState) (name : String) :
    EngineState × List Mark :=
  match lookupStr st.scripts name with
  | none => (st, [.logLine ("Script " ++ name ++ " not found during unload")])
  | some script =>
      let unloadMarks :=
        match script.onUnload with
        | some fn =>
            Mark.logLine ("Dispatching on_unload for script " ++ name) ::
              callLuaFunction ⟨fn, script.name⟩ .lnil
        | none => []
      let st1 := { st with hooks := removeHooks st.hooks script.name }
      let st2 := { st1 with timers := unregisterScriptTimers st1.timers name }
      let st3 := { st2 with
        commands := script.commands.foldl (fun cs c => eraseStr cs c)
          st2.commands }
      let st4 := { st3 with scripts := eraseStr st3.scripts script.name }
      (st4,
        unloadMarks ++
          [Mark.removedHooksOf script.name, Mark.removedTimersOf name] ++
          script.commands.map Mark.removedCommand ++
          [Mark.removedScript script.name,
           Mark.logLine ("Script " ++ name ++ " fully unloaded")])

/-- The effect of loadScript: reading, compiling and executing a script
file depends on the file system and the interpreter, so the embedding
is parameterized by it; it receives the engine state and the path and
returns the new state plus the trace of the top-level execution. -/
abbrev LoadAction := EngineState → String → EngineState × List Mark

/-- reloadScript of the lifecycle manager: unload the base name of the
path, then load the path; no attempt to restore on load failure. -/
def reloadScript (load : LoadAction) (st : EngineState) (path : String) :
    EngineState × List Mark :=
  let name := filepathBase path
  let r1 := unloadScript st name
  let r2 := load r1.1 path
  (r2.1, r1.2 ++ r2.2)

/-- ScriptEvent.Dispatch of events.go: a switch on the action with
cases for unload and reload only; every other action (including load)
falls to the default branch, which logs the action as unknown and
performs no mutation. -/
def scriptEventDispatch (load : LoadAction) (action scriptName : String)
    (st : EngineState) : EngineState × List Mark :=
  match action with
  | "unload" => unloadScript st scriptName
  | "reload" => reloadScript load st scriptName
  | _ => (st, [.logLine ("Unknown ScriptEvent action: " ++ action)])

/-- Event.Dispatch of events.go: a BotEvent fans out to every hook
currently registered for its type, in registration order; timer and
command events invoke their single resolved callback; a ScriptEvent
mutates the lifecycle manager. -/
def Event.dispatch (load : LoadAction) :
    Event → EngineState → EngineState × List Mark
  | .botEvent t data, st =>
      (st, (hooksFor st t).flatMap (fun h =>
        Mark.logLine ("Dispatching " ++ t ++ " for script " ++ h.script) ::
          callLuaFunction h data))
  | .timerEvent id data cb, st =>
      (st, Mark.logLine ("Dispatching timer " ++ id ++ " for script " ++
        cb.script) :: callLuaFunction cb data)
  | .commandEvent _ data cb, st => (st, callLuaFunction cb data)
  | .scriptEvent a n, st => scriptEventDispatch load a n st

/-! ## Event queue and dispatcher loop (engine.go) -/

/-- dispatcher of engine.go: the single consumer goroutine; the range
over the channel pulls events in FIFO arrival order (the input list)
and runs Dispatch to completion before pulling the next. Each
iteration is bracketed by eventStart and eventEnd marks. -/
def dispatcher (load : LoadAction) :
    EngineState → List Event → EngineState × List Mark
  | st, [] => (st, [])
  | st, e :: rest =>
      let r1 := Event.dispatch load e st
      let r2 := dispatcher load r1.1 rest
      (r2.1, [Mark.eventStart e] ++ r1.2 ++ [Mark.eventEnd e] ++ r2.2)

/-- The capacity of the buffered event channel created in New. -/
def eventQueueCapacity : Nat := 200

/-- The warning printed by the default branch of enqueueEvent, carrying
the event kind and the submitting source. -/
def dropLogLine (event : Event) (source : String) : String :=
  "Warning: Lua event queue full, dropping " ++ event.type ++
    " event from " ++ source

/-- enqueueEvent of engine.go: a select with a buffered channel send
and a default branch. If the buffer has room the event is appended;
otherwise the default branch drops it and logs the drop. The send
never blocks and nothing is returned to the caller: when a receiver is
parked the buffer is empty, so the send succeeds exactly when the
buffer holds fewer than its capacity. -/
def enqueueEvent (queue : List Event) (event : Event) (source : String) :
    List Event × List String :=
  if queue.length < eventQueueCapacity then (queue ++ [event], [])
  else (queue, [dropLogLine event source])

/-- The watcher loop body of watcher.go, for one fsnotify notification:
files that fail shouldProcessFile are skipped; a Write on a processed
file submits a reload ScriptEvent; otherwise a Create submits a load
ScriptEvent; other notifications submit nothing. -/
def watcherEventFor (eventName : String) (isWrite isCreate : Bool) :
    Option Event :=
  if !shouldProcessFile eventName then none
  else if isWrite then some (.scriptEvent "reload" eventName)
  else if isCreate then some (.scriptEvent "load" eventName)
  else none

/-! ## Trace predicates -/

/-- Dispatcher-level marks: entering or leaving one event. -/
def isEventMark : Mark → Bool
  | .eventStart _ => true
  | .eventEnd _ => true
  | _ => false

/-- The subsequence of dispatcher-level marks. -/
def eventMarks (ms : List Mark) : List Mark := ms.filter isEventMark

/-- Callback-execution marks. -/
def isCallMark : Mark → Bool
  | .callStart _ => true
  | .callEnd _ => true
  | _ => false

/-- The subsequence of callback-execution marks. -/
def callMarks (ms : List Mark) : List Mark := ms.filter isCallMark

/-- Registry-removal marks (emitted by unloadScript). -/
def isRemovalMark : Mark → Bool
  | .removedHooksOf _ => true
  | .removedTimersOf _ => true
  | .removedCommand _ => true
  | .removedScript _ => true
  | _ => false

/-- Scan of a trace tracking the callback currently executing (the
first argument): a callback may start only when none is running, a
callEnd must close the running callback, every other mark is
transparent, and the trace must end with no callback running. A true
result means callback executions never overlap: a counter of running
callbacks never exceeds one. -/
def serialCallsFrom : Option HookInfo → List Mark → Bool
  | s, [] => s.isNone
  | s, Mark.callStart f :: rest => s.isNone && serialCallsFrom (some f) rest
  | s, Mark.callEnd g :: rest =>
      match s with
      | some f => decide (f = g) && serialCallsFrom none rest
      | none => false
  | s, Mark.eventStart _ :: rest => serialCallsFrom s rest
  | s, Mark.eventEnd _ :: rest => serialCallsFrom s rest
  | s, Mark.logLine _ :: rest => serialCallsFrom s rest
  | s, Mark.removedHooksOf _ :: rest => serialCallsFrom s rest
  | s, Mark.removedTimersOf _ :: rest => serialCallsFrom s rest
  | s, Mark.removedCommand _ :: rest => serialCallsFrom s rest
  | s, Mark.removedScript _ :: rest => serialCallsFrom s rest

/-- A trace is serial when, starting with no callback running, callback
executions never overlap and all complete. -/
def serialCalls (ms : List Mark) : Bool := serialCallsFrom none ms

/-! ## Timer manager (registration and ids) -/

/-- generateTimerID of the timer manager: the fixed prefix plus the
wall-clock reading formatted at nanosecond granularity (layout
20060102150405.000000000). The formatted text is a function of the
clock reading, modelled as a nanosecond count; its exact rendering is
immaterial to the theorems about it. -/
def generateTimerID (nowNanos : Int) : String :=
  "timer_" ++ toString nowNanos

/-- registerTimer of the timer manager (shared by RegisterTimer and
RegisterRepeatingTimer): under the registry lock, generate an id from
the current wall-clock reading, build the active entry, arm the
platform timer (not modelled), and store the entry in the map, which
overwrites any entry already stored under the same id. -/
def registerTimer (timers : List (String × TimerEntry)) (nowNanos : Int)
    (durationNanos : Int) (callback : LuaFnRef) (data : LuaValue)
    (script : String) (repeating : Bool) :
    String × List (String × TimerEntry) :=
  let timerID := generateTimerID nowNanos
  let entry : TimerEntry :=
    { id := timerID, duration := durationNanos, callback := callback,
      data := data, script := script, active := true,
      repeating := repeating }
  (timerID, setStr timers timerID entry)

/-! ## Command registry (functions.go and engine.go) -/

/-- The white-space set of strings.ContainsAny(name, ...) in the
register_command validation, also the separators of strings.Fields on
the command codepath (ASCII white space). -/
def isSpaceChar (c : Char) : Bool :=
  c = ' ' || c = '\t' || c = '\n' || c = '\r'

/-- Character-list scan for strings.Fields, accumulating the current
run of non-white-space characters in reverse. -/
def strFieldsAux : List Char → List Char → List String
  | [], [] => []
  | [], acc => [String.mk acc.reverse]
  | c :: rest, acc =>
      if isSpaceChar c then
        match acc with
        | [] => strFieldsAux rest []
        | _ => String.mk acc.reverse :: strFieldsAux rest []
      else strFieldsAux rest (c :: acc)

/-- strings.Fields: the maximal runs of non-white-space characters. -/
def strFields (s : String) : List String := strFieldsAux s.toList []

/-- strings.TrimPrefix(tok, bang): drop the leading command marker when
present. -/
def trimBang (s : String) : String :=
  match s.toList with
  | '!' :: rest => String.mk rest
  | _ => s

/-- The register_command host function of functions.go, acting on the
commands map and on the Commands ledger of the currently executing
script (a field of the script object, returned alongside). Empty
names, names containing white space, and names already registered are
rejected by logging and returning without any mutation. -/
def registerCommand (commands : List (String × Command))
    (currentScript : String) (currentCommands : List String)
    (commandName commandDescription : String) (commandCallback : LuaFnRef)
    (cooldownNanos : Int) : List (String × Command) × List String :=
  if commandName = "" then (commands, currentCommands)
  else if commandName.any isSpaceChar then (commands, currentCommands)
  else
    match lookupStr commands commandName with
    | some _ => (commands, currentCommands)
    | none =>
        let cmd : Command :=
          { name := commandName, description := commandDescription,
            callback := { fn := commandCallback, script := currentScript },
            cooldown := cooldownNanos, lastUsed := 0 }
        (setStr commands commandName cmd, currentCommands ++ [commandName])

/-- One row of the snapshot table built by get_commands. The source
renders the cooldown via Duration.Seconds; the model keeps the
nanosecond count, a fixed rescaling. -/
structure CommandInfo where
  name : String
  description : String
  script : String
  cooldownNanos : Int
deriving Repr, DecidableEq

/-- The snapshot row get_commands builds from one Command. -/
def commandInfoOf (c : Command) : CommandInfo :=
  { name := c.name, description := c.description,
    script := c.callback.script, cooldownNanos := c.cooldown }

/-- The get_commands host function of functions.go: a snapshot of the
commands map keyed by name with name, description, owning script and
cooldown. -/
def getCommands (commands : List (String × Command)) :
    List (String × CommandInfo) :=
  commands.map (fun p => (p.1, commandInfoOf p.2))

/-- The fields of a discordgo MessageCreate that the command codepath
reads. -/
structure MessageCreate where
  content : String
  channelID : String
  author : String

/-- The argument table built by tryHandleCommand: positional tokens at
indices 1..n, the command token included at index 1. -/
def commandArgsTable (parts : List String) : LuaValue :=
  .ltable (parts.enum.map (fun p =>
    (LuaValue.lnum ((p.1 : Int) + 1), LuaValue.lstr p.2)))

/-- The event data table built by tryHandleCommand. -/
def commandDataTable (parts : List String) (m : MessageCreate) : LuaValue :=
  .ltable [(.lstr "args", commandArgsTable parts),
           (.lstr "channel_id", .lstr m.channelID),
           (.lstr "author", .lstr m.author)]

/-- tryHandleCommand of engine.go, called with the current wall-clock
reading. Split the content into fields; the first token minus the
command marker is the name. An unknown name reports unhandled so that
hook dispatch can run. A known command still inside its cooldown
window logs and reports handled without queueing anything. Otherwise
lastUsed is set to now (through the command pointer, before the
dispatch is queued), the argument and data tables are built, and one
CommandEvent is submitted. The returned triple is (handled, new state,
events submitted to the queue). -/
def tryHandleCommand (st : EngineState) (nowNanos : Int)
    (m : MessageCreate) : Bool × EngineState × List Event :=
  let parts := strFields m.content
  let commandName := trimBang (parts.headD "")
  match lookupStr st.commands commandName with
  | none => (false, st, [])
  | some cmd =>
      if nowNanos - cmd.lastUsed < cmd.cooldown then
        (true, st, [])
      else
        let cmd2 := { cmd with lastUsed := nowNanos }
        let st2 := { st with commands := setStr st.commands commandName cmd2 }
        (true, st2,
          [Event.commandEvent commandName (commandDataTable parts m)
            cmd.callback])

/-- The engine state after a successful command invocation at a given
time: the command entry carries the new lastUsed, everything else is
untouched. -/
def afterCommandUse (st : EngineState) (name : String) (cmd : Command)
    (nowNanos : Int) : EngineState :=
  { st with
    commands := setStr st.commands name { cmd with lastUsed := nowNanos } }

/-- A sample event used in closed witnesses. -/
def sampleEvent : Event := Event.botEvent "on_shutdown" LuaValue.lnil

/-! ## Concrete fixtures used by the closed witness theorems -/

/-- A load action that loads nothing, for closed dispatcher runs. -/
def noopLoad : LoadAction := fun st _ => (st, [])

/-- A small engine state with one registered hook. -/
def c2State : EngineState :=
  { hooks := [("on_channel_message", [⟨3, "a.lua"⟩])],
    scripts := [], commands := [], timers := [] }

/-- A two-event queue: a message fan-out event and a shutdown event. -/
def c2Events : List Event :=
  [Event.botEvent "on_channel_message" LuaValue.lnil, sampleEvent]

/-- A loaded script owning one hook, one command and one timer. -/
def c3Script : LuaScript :=
  { name := "foo.lua", path := "scripts/foo.lua", onUnload := some 9,
    commands := ["ping"] }

/-- The command registered by c3Script. -/
def c3Command : Command :=
  { name := "ping", description := "d", callback := ⟨4, "foo.lua"⟩,
    cooldown := 0, lastUsed := 0 }

/-- An engine state holding c3Script with registrations of its own and
of a second script. -/
def c3State : EngineState :=
  { hooks := [("on_channel_message", [⟨5, "foo.lua"⟩, ⟨6, "bar.lua"⟩])],
    scripts := [("foo.lua", c3Script)],
    commands := [("ping", c3Command)],
    timers := [("timer_1",
      { id := "timer_1", duration := 10, callback := 7, data := .lnil,
        script := "foo.lua", active := true, repeating := false })] }

/-- A command with a five-nanosecond cooldown, eligible immediately. -/
def c6Command : Command :=
  { name := "ping", description := "d", callback := ⟨4, "a.lua"⟩,
    cooldown := 5, lastUsed := 0 }

/-- An engine state holding only c6Command. -/
def c6State : EngineState :=
  { hooks := [], scripts := [], commands := [("ping", c6Command)],
    timers := [] }

/-- A message invoking the ping command. -/
def c6Message : MessageCreate :=
  { content := "!ping", channelID := "c1", author := "u" }

/-- A command registered first under the name ping. -/
def c7Command : Command :=
  { name := "ping", description := "first", callback := ⟨7, "a.lua"⟩,
    cooldown := 0, lastUsed := 0 }

theorem mapKeys_cons (p : String × GoVal) (m : List (String × GoVal)) :
    mapKeys (p :: m) = p.1 :: mapKeys m := rfl

theorem mapKeys_append (a b : List (String × GoVal)) :
    mapKeys (a ++ b) = mapKeys a ++ mapKeys b := List.map_append _ a b

theorem keyStrings_cons (p : LuaValue × LuaValue)
    (es : List (LuaValue × LuaValue)) :
    keyStrings (p :: es) = luaValueString p.1 :: keyStrings es := rfl

theorem mapInsert_not_mem (acc : List (String × GoVal)) (k : String)
    (v : GoVal) (h : k ∉ mapKeys acc) :
    mapInsert acc k v = acc ++ [(k, v)] := by
  induction acc with
  | nil => rfl
  | cons p rest ih =>
      obtain ⟨k2, v2⟩ := p
      simp only [mapKeys_cons, List.mem_cons, not_or] at h
      simp only [mapInsert]
      rw [if_neg (fun heq => h.1 heq.symm), ih h.2]
      simp

theorem luaTableToMapAux_append (es : List (LuaValue × LuaValue)) :
    ∀ acc : List (String × GoVal),
      (∀ k ∈ keyStrings es, k ∉ mapKeys acc) → keysNodupB es = true →
      luaTableToMapAux es acc =
        acc ++ es.map (fun p => (luaValueString p.1, luaEntryToGo p.2)) := by
  induction es with
  | nil => intro acc _ _; simp [luaTableToMapAux]
  | cons p rest ih =>
      intro acc hdisj hnodup
      obtain ⟨k, v⟩ := p
      have hk : luaValueString k ∉ mapKeys acc := by
        apply hdisj
        simp [keyStrings_cons]
      have hnd : (decide (luaValueString k ∉ keyStrings rest) &&
          keysNodupB rest) = true := hnodup
      simp only [Bool.and_eq_true, decide_eq_true_eq] at hnd
      rw [luaTableToMapAux, mapInsert_not_mem acc _ _ hk]
      rw [ih (acc ++ [(luaValueString k, luaEntryToGo v)]) ?_ hnd.2]
      · simp
      · intro k2 hk2
        have h1 : k2 ∉ mapKeys acc := by
          apply hdisj
          simp only [keyStrings_cons, List.mem_cons]
          exact Or.inr hk2
        have h2 : k2 ≠ luaValueString k := fun heq => hnd.1 (heq ▸ hk2)
        rw [mapKeys_append]
        simp only [List.mem_append, not_or]
        refine ⟨h1, ?_⟩
        simp [mapKeys, h2]

theorem stringPure_roundtrip_all : ∀ n : Nat,
    (∀ v : LuaValue, sizeOf v ≤ n → stringPureVal v = true →
        goValueToLua (luaEntryToGo v) = v) ∧
    (∀ es : List (LuaValue × LuaValue), sizeOf es ≤ n →
        stringPureEntries es = true →
        goFieldsToLua
            (es.map (fun p => (luaValueString p.1, luaEntryToGo p.2))) = es) := by
  intro n
  induction n using Nat.strong_induction_on with
  | _ n ih =>
    constructor
    · intro v hsz hpure
      cases v with
      | lstr s => simp [luaEntryToGo, luaValueString, goValueToLua]
      | lnil => simp [stringPureVal] at hpure
      | lbool b => simp [stringPureVal] at hpure
      | lnum m => simp [stringPureVal] at hpure
      | ltable es =>
          have hpure2 : (keysNodupB es && stringPureEntries es) = true := hpure
          simp only [Bool.and_eq_true] at hpure2
          have hszes : sizeOf es + 1 ≤ n := by
            have : sizeOf (LuaValue.ltable es) = 1 + sizeOf es := by simp
            omega
          simp only [luaEntryToGo]
          rw [luaTableToMapAux_append es []
            (by intro k _hk; simp [mapKeys]) hpure2.1]
          rw [List.nil_append]
          simp only [goValueToLua]
          rw [(ih (n - 1) (by omega)).2 es (by omega) hpure2.2]
    · intro es hsz hpure
      cases es with
      | nil => simp [goFieldsToLua]
      | cons p rest =>
          obtain ⟨k, v⟩ := p
          cases k with
          | lstr s =>
              simp only [stringPureEntries, Bool.and_eq_true] at hpure
              obtain ⟨⟨_, hv⟩, hrest⟩ := hpure
              have hszv : sizeOf v + 1 ≤ n := by
                have h1 : sizeOf ((LuaValue.lstr s, v) :: rest) =
                    1 + sizeOf (LuaValue.lstr s, v) + sizeOf rest := by simp
                have h2 : sizeOf (LuaValue.lstr s, v) =
                    1 + sizeOf (LuaValue.lstr s) + sizeOf v := by simp
                have h3 : 1 ≤ sizeOf rest := by
                  cases rest <;> simp_arith
                omega
              have hszr : sizeOf rest + 1 ≤ n := by
                have h1 : sizeOf ((LuaValue.lstr s, v) :: rest) =
                    1 + sizeOf (LuaValue.lstr s, v) + sizeOf rest := by simp
                have h2 : 1 ≤ sizeOf (LuaValue.lstr s, v) := by
                  simp_arith
                omega
              simp only [List.map_cons, goFieldsToLua]
              rw [(ih (n - 1) (by omega)).1 v (by omega) hv]
              rw [(ih (n - 1) (by omega)).2 rest (by omega) hrest]
              simp [luaValueString]
          | lnil => simp [stringPureEntries, stringPureVal] at hpure
          | lbool b => simp [stringPureEntries, stringPureVal] at hpure
          | lnum m => simp [stringPureEntries, stringPureVal] at hpure
          | ltable es2 => simp [stringPureEntries, stringPureVal] at hpure

/-- C1 (amended): StoreSet of a table followed by StoreGet returns the
table with every key and every non-table leaf replaced by its string
representation; in particular, for every table all of whose keys are
strings without collisions and whose values are strings or again such
tables, the round trip returns a structurally equal table. -/
theorem C1_string_pure_roundtrip (es : List (LuaValue × LuaValue))
    (hnodup : keysNodupB es = true) (hpure : stringPureEntries es = true) :
    storeTableRoundTrip es = LuaValue.ltable es := by
  have h := (stringPure_roundtrip_all (sizeOf (LuaValue.ltable es))).1
    (LuaValue.ltable es) (le_refl _)
    (by simp [stringPureVal, hnodup, hpure])
  have he : luaEntryToGo (LuaValue.ltable es) =
      GoVal.gmap (luaTableToMap es) := by
    simp [luaEntryToGo, luaTableToMap]
  rw [storeTableRoundTrip, ← he]
  exact h

/-- C1 (counterexample): the claim as stated fails on a table containing
a number. StoreSet stringifies the number 42 while storing, so the
round trip returns a table holding the string "42", which is not
structurally equal to the original table holding the number 42. -/
theorem C1_counterexample :
    storeTableRoundTrip [(LuaValue.lstr "answer", LuaValue.lnum 42)] ≠
      LuaValue.ltable [(LuaValue.lstr "answer", LuaValue.lnum 42)] := by
  have hcalc :
      storeTableRoundTrip [(LuaValue.lstr "answer", LuaValue.lnum 42)] =
        LuaValue.ltable [(LuaValue.lstr "answer", LuaValue.lstr "42")] := by
    simp only [storeTableRoundTrip, luaTableToMap, luaTableToMapAux,
          luaEntryToGo, mapInsert, luaValueString, goValueToLua, goFieldsToLua]
    rfl
  rw [hcalc]
  simp

/-- C1 witness: the amended round-trip theorem applied to a concrete
nested table of strings. -/
theorem C1_string_pure_roundtrip_witness :
    keysNodupB c1SampleTable = true ∧
    stringPureEntries c1SampleTable = true ∧
    storeTableRoundTrip c1SampleTable = LuaValue.ltable c1SampleTable := by
  have h1 : keysNodupB c1SampleTable = true := by
    simp [c1SampleTable, keysNodupB, keyStrings, luaValueString]
  have h2 : stringPureEntries c1SampleTable = true := by
    simp [c1SampleTable, stringPureEntries, stringPureVal, keysNodupB,
          keyStrings, luaValueString]
  exact ⟨h1, h2, C1_string_pure_roundtrip c1SampleTable h1 h2⟩

/-! ## Generic association-list map lemmas -/

theorem lookupStr_setStr_self {α : Type} (m : List (String × α))
    (k : String) (v : α) : lookupStr (setStr m k v) k = some v := by
  induction m with
  | nil => simp [setStr, lookupStr]
  | cons p rest ih =>
      obtain ⟨k2, v2⟩ := p
      by_cases h : k2 = k
      · simp [setStr, lookupStr, h]
      · simp [setStr, lookupStr, h, ih]

theorem lookupStr_mapValues {α β : Type} (f : α → β)
    (m : List (String × α)) (k : String) :
    lookupStr (m.map (fun p => (p.1, f p.2))) k = (lookupStr m k).map f := by
  induction m with
  | nil => rfl
  | cons p rest ih =>
      obtain ⟨k2, v2⟩ := p
      by_cases h : k2 = k
      · simp [lookupStr, h]
      · simp [lookupStr, h, ih]

theorem lookupStr_eq_none_of_not_mem {α : Type} (m : List (String × α))
    (k : String) (h : k ∉ keysOf m) : lookupStr m k = none := by
  induction m with
  | nil => rfl
  | cons p rest ih =>
      obtain ⟨k2, v2⟩ := p
      simp only [keysOf, List.map_cons, List.mem_cons, not_or] at h
      simp only [lookupStr]
      rw [if_neg (fun heq => h.1 heq.symm)]
      exact ih (fun hm => h.2 hm)

theorem lookupStr_mem {α : Type} (m : List (String × α)) (k : String)
    (v : α) (h : lookupStr m k = some v) : (k, v) ∈ m := by
  induction m with
  | nil => simp [lookupStr] at h
  | cons p rest ih =>
      obtain ⟨k2, v2⟩ := p
      simp only [lookupStr] at h
      by_cases h2 : k2 = k
      · rw [if_pos h2] at h
        subst h2
        simp only [Option.some.injEq] at h
        subst h
        exact List.mem_cons_self _ _
      · rw [if_neg h2] at h
        exact List.mem_cons_of_mem _ (ih h)

theorem lookupStr_eraseStr_of_ne {α : Type} (m : List (String × α))
    (k key : String) (h : key ≠ k) :
    lookupStr (eraseStr m k) key = lookupStr m key := by
  induction m with
  | nil => rfl
  | cons p rest ih =>
      obtain ⟨k2, v2⟩ := p
      by_cases h2 : k2 = k
      · subst h2
        have he : eraseStr ((k2, v2) :: rest) k2 = rest := by
          simp [eraseStr]
        rw [he]
        simp only [lookupStr]
        rw [if_neg (fun heq => h heq.symm)]
      · simp only [eraseStr, if_neg h2, lookupStr]
        by_cases h3 : k2 = key
        · rw [if_pos h3, if_pos h3]
        · rw [if_neg h3, if_neg h3, ih]

theorem keysOf_eraseStr_sublist {α : Type} (m : List (String × α))
    (k : String) : (keysOf (eraseStr m k)).Sublist (keysOf m) := by
  induction m with
  | nil => simp [eraseStr, keysOf]
  | cons p rest ih =>
      obtain ⟨k2, v2⟩ := p
      by_cases h : k2 = k
      · simp only [eraseStr, if_pos h, keysOf, List.map_cons]
        exact List.sublist_cons_of_sublist _ (List.Sublist.refl _)
      · simp only [eraseStr, if_neg h, keysOf, List.map_cons]
        exact List.Sublist.cons₂ _ ih

theorem lookupStr_eraseStr_self {α : Type} (m : List (String × α))
    (k : String) (h : (keysOf m).Nodup) :
    lookupStr (eraseStr m k) k = none := by
  induction m with
  | nil => rfl
  | cons p rest ih =>
      obtain ⟨k2, v2⟩ := p
      simp only [keysOf, List.map_cons, List.nodup_cons] at h
      by_cases h2 : k2 = k
      · subst h2
        simp only [eraseStr, if_pos rfl]
        exact lookupStr_eq_none_of_not_mem rest k2 h.1
      · simp only [eraseStr, if_neg h2, lookupStr, if_neg h2]
        exact ih h.2

theorem eraseStr_keys_nodup {α : Type} (m : List (String × α)) (k : String)
    (h : (keysOf m).Nodup) : (keysOf (eraseStr m k)).Nodup :=
  (keysOf_eraseStr_sublist m k).nodup h

theorem lookupStr_foldl_erase {α : Type} (targets : List String) :
    ∀ (m : List (String × α)) (key : String), (keysOf m).Nodup →
    lookupStr (targets.foldl (fun ts id => eraseStr ts id) m) key =
      if key ∈ targets then none else lookupStr m key := by
  induction targets with
  | nil => intro m key _; simp
  | cons t rest ih =>
      intro m key hnd
      simp only [List.foldl_cons]
      rw [ih (eraseStr m t) key (eraseStr_keys_nodup m t hnd)]
      by_cases h : key ∈ rest
      · simp [h]
      · by_cases h2 : key = t
        · subst h2
          simp [h, lookupStr_eraseStr_self m key hnd]
        · simp [h, h2, lookupStr_eraseStr_of_ne m t key h2]

/-! ## C4, C5, C8, C9, C10 -/

/-- C4: the watcher submits a load ScriptEvent for a newly created
recognized file, but dispatching a load ScriptEvent does not load the
script: the dispatch switch of events.go has no load case, so it falls
to the default branch, logs the action as unknown, and leaves the
engine state, in particular the scripts map, unchanged. -/
theorem C4_load_action_ignored (load : LoadAction) (st : EngineState) :
    watcherEventFor "scripts/hello.lua" false true =
      some (Event.scriptEvent "load" "scripts/hello.lua") ∧
    Event.dispatch load (Event.scriptEvent "load" "scripts/hello.lua") st =
      (st, [Mark.logLine "Unknown ScriptEvent action: load"]) := by
  constructor
  · rfl
  · rfl

/-- C5: submitting an event never blocks and never returns an error:
below capacity the event is appended to the queue; at capacity the
queue is unchanged and the drop is logged with the event kind and the
source label. -/
theorem C5_enqueue_nonblocking (queue : List Event) (event : Event)
    (source : String) :
    (queue.length < eventQueueCapacity →
        enqueueEvent queue event source = (queue ++ [event], [])) ∧
    (eventQueueCapacity ≤ queue.length →
        enqueueEvent queue event source =
          (queue, [dropLogLine event source]) ∧
        dropLogLine event source =
          "Warning: Lua event queue full, dropping " ++ event.type ++
            " event from " ++ source) := by
  constructor
  · intro h
    simp [enqueueEvent, h]
  · intro h
    have hnot : ¬ queue.length < eventQueueCapacity := by omega
    exact ⟨by simp [enqueueEvent, hnot], rfl⟩

/-- C5 witness: the non-blocking submit theorem applied to an empty
queue and to a queue at capacity. -/
theorem C5_enqueue_nonblocking_witness :
    enqueueEvent [] sampleEvent "watcher" = ([sampleEvent], []) ∧
    enqueueEvent (List.replicate 200 sampleEvent) sampleEvent "watcher" =
      (List.replicate 200 sampleEvent,
        [dropLogLine sampleEvent "watcher"]) := by
  constructor
  · exact (C5_enqueue_nonblocking [] sampleEvent "watcher").1
      (by simp [eventQueueCapacity])
  · exact ((C5_enqueue_nonblocking (List.replicate 200 sampleEvent)
      sampleEvent "watcher").2
        (by rw [List.length_replicate]; exact Nat.le_refl 200)).1

/-- C8 (counterexample): a hidden file with the recognized extension is
attempted and loaded by LoadScripts, which filters only on the
extension, although the claim predicts it is skipped like the watcher
skips it. -/
theorem C8_counterexample :
    (loadScriptsFrom (fun _ => true) [".secret.lua"]).2 = [".secret.lua"] ∧
    shouldProcessFile ".secret.lua" = false ∧
    List.filter
      (fun f => decide (filepathExt f = ".lua") && !(beginsWithDot f))
      [".secret.lua"] = [] := by
  refine ⟨rfl, rfl, rfl⟩

/-- C8 (amended): LoadScripts attempts exactly the files carrying the
.lua extension, hidden or not (only the watcher excludes hidden
files), and the loaded files are the attempted ones whose individual
load succeeded: a per-file failure never removes a later file from the
attempt list, whatever the per-file outcomes are. -/
theorem C8_loader_extension_filter (loadOk : String → Bool)
    (files : List String) :
    (loadScriptsFrom loadOk files).1 =
      files.filter (fun f => decide (filepathExt f = ".lua")) ∧
    (loadScriptsFrom loadOk files).2 =
      (files.filter (fun f => decide (filepathExt f = ".lua"))).filter
        loadOk := by
  induction files with
  | nil => exact ⟨rfl, rfl⟩
  | cons f rest ih =>
      by_cases h : filepathExt f = ".lua"
      · by_cases h2 : loadOk f
        · constructor
          · simp [loadScriptsFrom, h, h2, ih.1]
          · simp [loadScriptsFrom, h, h2, ih.2]
        · constructor
          · simp [loadScriptsFrom, h, h2, ih.1]
          · simp [loadScriptsFrom, h, h2, ih.2]
      · constructor
        · simp [loadScriptsFrom, h, ih.1]
        · simp [loadScriptsFrom, h, ih.2]

/-- C9: two timer registrations that read the same wall-clock
nanosecond receive the same id, and the second entry silently
overwrites the first in the timer map: generateTimerID is a pure
function of the formatted clock reading, so the ids are not unique. -/
theorem C9_timer_id_collision :
    (registerTimer [] 1760140800 1000000000 1 LuaValue.lnil
        "a.lua" false).1 =
      (registerTimer
        (registerTimer [] 1760140800 1000000000 1 LuaValue.lnil
          "a.lua" false).2
        1760140800 2000000000 2 LuaValue.lnil "b.lua" true).1 ∧
    (registerTimer
        (registerTimer [] 1760140800 1000000000 1 LuaValue.lnil
          "a.lua" false).2
        1760140800 2000000000 2 LuaValue.lnil "b.lua" true).2.length = 1 ∧
    (lookupStr
        (registerTimer
          (registerTimer [] 1760140800 1000000000 1 LuaValue.lnil
            "a.lua" false).2
          1760140800 2000000000 2 LuaValue.lnil "b.lua" true).2
        (generateTimerID 1760140800)).map (fun e => e.script) =
      some "b.lua" := by
  refine ⟨rfl, rfl, rfl⟩

/-- C10 (counterexample): the JSON literal null is valid JSON whose top
level is not an object, yet json_decode does not return nil:
Unmarshal of null into the map succeeds leaving the map nil, and the
nil map converts to an empty Lua table. -/
theorem C10_null_counterexample :
    jsonDecode (some GoVal.gnull) = some (LuaValue.ltable []) ∧
    jsonDecode (some GoVal.gnull) ≠ none := by
  have h : jsonDecode (some GoVal.gnull) = some (LuaValue.ltable []) := by
    simp [jsonDecode, unmarshalIntoMap, goValueToLua, goFieldsToLua]
  exact ⟨h, by rw [h]; simp⟩

/-- C10 (amended): valid JSON whose top level is an array, string,
number or boolean decodes to nil with the error logged, exactly like
invalid JSON, but the top-level literal null succeeds and yields an
empty table; only top-level objects produce a populated table. -/
theorem C10_nonobject_decode (s : String) (n : Int) (b : Bool)
    (xs : List GoVal) :
    jsonDecode none = none ∧
    jsonDecode (some (GoVal.gstr s)) = none ∧
    jsonDecode (some (GoVal.gnum n)) = none ∧
    jsonDecode (some (GoVal.gbool b)) = none ∧
    jsonDecode (some (GoVal.garr xs)) = none ∧
    jsonDecode (some GoVal.gnull) = some (LuaValue.ltable []) := by
  refine ⟨rfl, rfl, rfl, rfl, rfl, ?_⟩
  simp [jsonDecode, unmarshalIntoMap, goValueToLua, goFieldsToLua]

/-! ## C7: command name uniqueness -/

/-- C7: a register_command call for a name already present in the
commands map leaves the map and the calling script ledger unchanged
(the rejection is logged, no error reaches the caller), and
get_commands afterwards still reports the first registrant entry for
that name. -/
theorem C7_duplicate_command_rejected (commands : List (String × Command))
    (cur : String) (curCmds : List String) (desc : String) (cb : LuaFnRef)
    (cd : Int) (name : String) (cmd0 : Command)
    (h : lookupStr commands name = some cmd0) :
    registerCommand commands cur curCmds name desc cb cd =
      (commands, curCmds) ∧
    lookupStr (getCommands commands) name = some (commandInfoOf cmd0) := by
  constructor
  · by_cases h1 : name = ""
    · simp [registerCommand, h1]
    · by_cases h2 : name.any isSpaceChar
      · simp [registerCommand, h1, h2]
      · simp [registerCommand, h1, h2, h]
  · rw [getCommands, lookupStr_mapValues commandInfoOf commands name, h]
    rfl

/-- C7 witness: rejecting a duplicate registration of ping from a
second script. -/
theorem C7_duplicate_command_rejected_witness :
    lookupStr [("ping", c7Command)] "ping" = some c7Command ∧
    registerCommand [("ping", c7Command)] "b.lua" [] "ping" "second" 8 0 =
      ([("ping", c7Command)], []) ∧
    lookupStr (getCommands [("ping", c7Command)]) "ping" =
      some (commandInfoOf c7Command) := by
  refine ⟨rfl, ?_, ?_⟩
  · exact (C7_duplicate_command_rejected [("ping", c7Command)] "b.lua" []
      "second" 8 0 "ping" c7Command rfl).1
  · exact (C7_duplicate_command_rejected [("ping", c7Command)] "b.lua" []
      "second" 8 0 "ping" c7Command rfl).2

/-! ## C6: command cooldown -/

/-- C6: a command invoked while eligible at time t queues exactly one
CommandEvent, with lastUsed set to t in the stored entry before the
dispatch is queued; a second invocation at any time within the
cooldown window is reported handled but queues nothing and changes
nothing; a third invocation once the cooldown has elapsed again queues
exactly one dispatch. -/
theorem C6_cooldown_exactly_once (st : EngineState) (name : String)
    (cmd : Command) (t t2 t3 : Int) (m1 m2 m3 : MessageCreate)
    (hlk : lookupStr st.commands name = some cmd)
    (h1 : trimBang ((strFields m1.content).headD "") = name)
    (h2 : trimBang ((strFields m2.content).headD "") = name)
    (h3 : trimBang ((strFields m3.content).headD "") = name)
    (ht1 : cmd.cooldown ≤ t - cmd.lastUsed)
    (ht2 : t2 - t < cmd.cooldown)
    (ht3 : cmd.cooldown ≤ t3 - t) :
    tryHandleCommand st t m1 =
      (true, afterCommandUse st name cmd t,
       [Event.commandEvent name
         (commandDataTable (strFields m1.content) m1) cmd.callback]) ∧
    tryHandleCommand (afterCommandUse st name cmd t) t2 m2 =
      (true, afterCommandUse st name cmd t, []) ∧
    tryHandleCommand (afterCommandUse st name cmd t) t3 m3 =
      (true, afterCommandUse (afterCommandUse st name cmd t) name
        { cmd with lastUsed := t } t3,
       [Event.commandEvent name
         (commandDataTable (strFields m3.content) m3) cmd.callback]) := by
  have hnot1 : ¬ (t - cmd.lastUsed < cmd.cooldown) := by omega
  have hc2 : lookupStr (afterCommandUse st name cmd t).commands name =
      some { cmd with lastUsed := t } := by
    simp only [afterCommandUse]
    exact lookupStr_setStr_self st.commands name _
  refine ⟨?_, ?_, ?_⟩
  · simp only [tryHandleCommand, h1, hlk]
    rw [if_neg hnot1]
    rfl
  · simp only [tryHandleCommand, h2, hc2]
    rw [if_pos ht2]
  · have hnot3 : ¬ (t3 - ({ cmd with lastUsed := t } : Command).lastUsed <
        ({ cmd with lastUsed := t } : Command).cooldown) := by
      simp only []
      omega
    simp only [tryHandleCommand, h3, hc2]
    rw [if_neg hnot3]
    rfl

/-- C6 witness: the ping command with a five-unit cooldown, invoked at
times 5, 7 and 10: the first invocation queues and stores lastUsed 5,
the second is swallowed by the cooldown. -/
theorem C6_cooldown_exactly_once_witness :
    tryHandleCommand c6State 5 c6Message =
      (true, afterCommandUse c6State "ping" c6Command 5,
       [Event.commandEvent "ping"
         (commandDataTable (strFields c6Message.content) c6Message)
         c6Command.callback]) ∧
    tryHandleCommand (afterCommandUse c6State "ping" c6Command 5) 7
        c6Message =
      (true, afterCommandUse c6State "ping" c6Command 5, []) := by
  have h := C6_cooldown_exactly_once c6State "ping" c6Command 5 7 10
    c6Message c6Message c6Message rfl rfl rfl rfl
    (by decide) (by decide) (by decide)
  exact ⟨h.1, h.2.1⟩

/-! ## C3: unloading a script -/

theorem unloadScript_eq_of_some (st : EngineState) (name : String)
    (s : LuaScript) (hlk : lookupStr st.scripts name = some s) :
    unloadScript st name =
      ({ hooks := removeHooks st.hooks s.name,
         scripts := eraseStr st.scripts s.name,
         commands := s.commands.foldl (fun cs c => eraseStr cs c) st.commands,
         timers := unregisterScriptTimers st.timers name },
       (match s.onUnload with
        | some fn =>
            Mark.logLine ("Dispatching on_unload for script " ++ name) ::
              callLuaFunction ⟨fn, s.name⟩ .lnil
        | none => []) ++
         ([Mark.removedHooksOf s.name, Mark.removedTimersOf name] ++
          (s.commands.map Mark.removedCommand ++
           [Mark.removedScript s.name,
            Mark.logLine ("Script " ++ name ++ " fully unloaded")]))) := by
  simp only [unloadScript, hlk, List.append_assoc]

/-- C3: unloading a loaded script dispatches its on_unload callback
(when registered) strictly before every registry removal, and then
removes every hook registration, every timer entry, and every
registered command of the script together with the script itself, so
that none remain; unloading a name that is not a loaded script is a
logged no-op that leaves the whole engine state unchanged. The command
conclusion needs the reachable-state consistency that any registry
command owned by the script is listed in its Commands ledger. -/
theorem C3_unload_removes_all (st : EngineState) (name : String)
    (hwf : WFState st) :
    (lookupStr st.scripts name = none →
        unloadScript st name =
          (st,
           [Mark.logLine ("Script " ++ name ++ " not found during unload")])) ∧
    (∀ s : LuaScript, lookupStr st.scripts name = some s → s.name = name →
      (∀ c cmd, lookupStr st.commands c = some cmd →
          cmd.callback.script = name → c ∈ s.commands) →
      ((∀ t h2, h2 ∈ hooksFor (unloadScript st name).1 t →
          h2.script ≠ name) ∧
       (∀ id entry, lookupStr (unloadScript st name).1.timers id =
           some entry → entry.script ≠ name) ∧
       (∀ c cmd, lookupStr (unloadScript st name).1.commands c = some cmd →
           cmd.callback.script ≠ name) ∧
       lookupStr (unloadScript st name).1.scripts name = none ∧
       (∃ pre post, (unloadScript st name).2 = pre ++ post ∧
           (∀ m ∈ pre, isRemovalMark m = false) ∧
           (∀ m ∈ post, isCallMark m = false)))) := by
  constructor
  · intro h
    simp only [unloadScript, h]
  · intro s hlk hname hcmd
    rw [unloadScript_eq_of_some st name s hlk]
    refine ⟨?_, ?_, ?_, ?_, ?_⟩
    · intro t h2 hm
      simp only [hooksFor, removeHooks] at hm
      rw [lookupStr_mapValues
        (fun l => l.filter (fun h3 => h3.script ≠ s.name)) st.hooks t] at hm
      cases hl : lookupStr st.hooks t with
      | none => rw [hl] at hm; simp at hm
      | some l =>
          rw [hl] at hm
          simp at hm
          rw [← hname]
          exact hm.2
    · intro id entry hm
      simp only [unregisterScriptTimers] at hm
      rw [lookupStr_foldl_erase
        ((st.timers.filter (fun p => p.2.script = name)).map Prod.fst)
        st.timers id hwf.timersNodup] at hm
      by_cases hin :
          id ∈ (st.timers.filter (fun p => p.2.script = name)).map Prod.fst
      · rw [if_pos hin] at hm
        exact absurd hm (by simp)
      · rw [if_neg hin] at hm
        intro hs
        apply hin
        have hmem := lookupStr_mem st.timers id entry hm
        refine List.mem_map.mpr ⟨(id, entry), ?_, rfl⟩
        refine List.mem_filter.mpr ⟨hmem, ?_⟩
        simp [hs]
    · intro c cmd hm
      rw [lookupStr_foldl_erase s.commands st.commands c
        hwf.commandsNodup] at hm
      by_cases hin : c ∈ s.commands
      · rw [if_pos hin] at hm
        exact absurd hm (by simp)
      · rw [if_neg hin] at hm
        intro hs
        exact hin (hcmd c cmd hm hs)
    · rw [hname]
      exact lookupStr_eraseStr_self st.scripts name hwf.scriptsNodup
    · refine ⟨(match s.onUnload with
        | some fn =>
            Mark.logLine ("Dispatching on_unload for script " ++ name) ::
              callLuaFunction ⟨fn, s.name⟩ .lnil
        | none => []),
        [Mark.removedHooksOf s.name, Mark.removedTimersOf name] ++
          (s.commands.map Mark.removedCommand ++
           [Mark.removedScript s.name,
            Mark.logLine ("Script " ++ name ++ " fully unloaded")]),
        rfl, ?_, ?_⟩
      · intro m hm
        cases hu : s.onUnload with
        | none => rw [hu] at hm; simp at hm
        | some fn =>
            rw [hu] at hm
            simp only [callLuaFunction, List.mem_cons, List.mem_singleton]
              at hm
            rcases hm with h | h | h | h
            · rw [h]; rfl
            · rw [h]; rfl
            · rw [h]; rfl
            · simp at h
      · intro m hm
        simp only [List.mem_append, List.mem_cons, List.mem_singleton,
          List.mem_map, List.not_mem_nil, or_false] at hm
        rcases hm with (h | h) | (⟨c, _, h⟩ | h | h)
        · subst h; rfl
        · subst h; rfl
        · rw [← h]; rfl
        · subst h; rfl
        · subst h; rfl

/-- C3 witness: unloading foo.lua from a state where it owns a hook, a
command and a timer and a second script owns another hook. -/
theorem C3_unload_removes_all_witness :
    lookupStr c3State.scripts "foo.lua" = some c3Script ∧
    c3Script.name = "foo.lua" ∧
    (∀ t h2, h2 ∈ hooksFor (unloadScript c3State "foo.lua").1 t →
        h2.script ≠ "foo.lua") ∧
    lookupStr (unloadScript c3State "foo.lua").1.scripts "foo.lua" =
      none := by
  have hwf : WFState c3State := ⟨by decide, by decide, by decide⟩
  have hcmd : ∀ c cmd, lookupStr c3State.commands c = some cmd →
      cmd.callback.script = "foo.lua" → c ∈ c3Script.commands := by
    intro c cmd hc _
    have hmem := lookupStr_mem _ _ _ hc
    simp only [c3State] at hmem
    rw [List.mem_singleton, Prod.mk.injEq] at hmem
    rw [hmem.1]
    simp [c3Script]
  have h := (C3_unload_removes_all c3State "foo.lua" hwf).2 c3Script rfl rfl
    hcmd
  exact ⟨rfl, rfl, h.1, h.2.2.2.1⟩

/-! ## C2: FIFO serial dispatch -/

theorem eventMarks_append (a b : List Mark) :
    eventMarks (a ++ b) = eventMarks a ++ eventMarks b :=
  List.filter_append a b

theorem serialCallsFrom_append (a : List Mark) :
    ∀ (s : Option HookInfo) (b : List Mark), serialCallsFrom s a = true →
      serialCallsFrom s (a ++ b) = serialCallsFrom none b := by
  induction a with
  | nil =>
      intro s b h
      cases s with
      | none => simp
      | some f => simp [serialCallsFrom] at h
  | cons m rest ih =>
      intro s b h
      cases m with
      | callStart f =>
          cases s with
          | some g => simp [serialCallsFrom] at h
          | none =>
              simp only [serialCallsFrom, Option.isNone_none,
                Bool.true_and] at h
              simp only [List.cons_append, serialCallsFrom,
                Option.isNone_none, Bool.true_and]
              exact ih (some f) b h
      | callEnd g =>
          cases s with
          | none => simp [serialCallsFrom] at h
          | some f =>
              simp only [serialCallsFrom, Bool.and_eq_true,
                decide_eq_true_eq] at h
              obtain ⟨hfg, hrec⟩ := h
              subst hfg
              simp only [List.cons_append, serialCallsFrom]
              simp [List.append_eq, ih none b hrec]
      | eventStart e =>
          simp only [serialCallsFrom] at h
          simp only [List.cons_append, serialCallsFrom]
          exact ih s b h
      | eventEnd e =>
          simp only [serialCallsFrom] at h
          simp only [List.cons_append, serialCallsFrom]
          exact ih s b h
      | logLine x =>
          simp only [serialCallsFrom] at h
          simp only [List.cons_append, serialCallsFrom]
          exact ih s b h
      | removedHooksOf x =>
          simp only [serialCallsFrom] at h
          simp only [List.cons_append, serialCallsFrom]
          exact ih s b h
      | removedTimersOf x =>
          simp only [serialCallsFrom] at h
          simp only [List.cons_append, serialCallsFrom]
          exact ih s b h
      | removedCommand x =>
          simp only [serialCallsFrom] at h
          simp only [List.cons_append, serialCallsFrom]
          exact ih s b h
      | removedScript x =>
          simp only [serialCallsFrom] at h
          simp only [List.cons_append, serialCallsFrom]
          exact ih s b h

theorem serialCalls_append (a b : List Mark) (ha : serialCalls a = true)
    (hb : serialCalls b = true) : serialCalls (a ++ b) = true := by
  unfold serialCalls at ha hb ⊢
  rw [serialCallsFrom_append a none b ha]
  exact hb

theorem serialCallsFrom_no_calls : ∀ (ms : List Mark) (s : Option HookInfo),
    (∀ m ∈ ms, isCallMark m = false) → serialCallsFrom s ms = s.isNone := by
  intro ms
  induction ms with
  | nil => intro s _; rfl
  | cons m rest ih =>
      intro s h
      have hm := h m (List.mem_cons_self m rest)
      have hrest : ∀ m2 ∈ rest, isCallMark m2 = false :=
        fun m2 hm2 => h m2 (List.mem_cons_of_mem _ hm2)
      cases m with
      | callStart f => simp [isCallMark] at hm
      | callEnd g => simp [isCallMark] at hm
      | eventStart e => simpa only [serialCallsFrom] using ih s hrest
      | eventEnd e => simpa only [serialCallsFrom] using ih s hrest
      | logLine x => simpa only [serialCallsFrom] using ih s hrest
      | removedHooksOf x => simpa only [serialCallsFrom] using ih s hrest
      | removedTimersOf x => simpa only [serialCallsFrom] using ih s hrest
      | removedCommand x => simpa only [serialCallsFrom] using ih s hrest
      | removedScript x => simpa only [serialCallsFrom] using ih s hrest

theorem serialCalls_hook_blocks (data : LuaValue) (t : String)
    (hooks : List HookInfo) :
    serialCalls (hooks.flatMap (fun h =>
      Mark.logLine ("Dispatching " ++ t ++ " for script " ++ h.script) ::
        callLuaFunction h data)) = true := by
  induction hooks with
  | nil => rfl
  | cons h rest ih =>
      rw [List.flatMap_cons]
      apply serialCalls_append
      · simp [serialCalls, serialCallsFrom, callLuaFunction]
      · exact ih

theorem eventMarks_hook_blocks (data : LuaValue) (t : String)
    (hooks : List HookInfo) :
    eventMarks (hooks.flatMap (fun h =>
      Mark.logLine ("Dispatching " ++ t ++ " for script " ++ h.script) ::
        callLuaFunction h data)) = [] := by
  induction hooks with
  | nil => rfl
  | cons h rest ih =>
      rw [List.flatMap_cons, eventMarks_append, ih]
      rfl

theorem unloadScript_no_eventMarks (st : EngineState) (name : String) :
    eventMarks (unloadScript st name).2 = [] := by
  cases hlk : lookupStr st.scripts name with
  | none => simp [unloadScript, hlk, eventMarks, isEventMark]
  | some s =>
      rw [unloadScript_eq_of_some st name s hlk]
      simp only [eventMarks, List.filter_append, List.append_eq_nil]
      refine ⟨?_, ?_, ?_, ?_⟩
      · cases s.onUnload <;>
          simp [callLuaFunction, isEventMark, List.filter]
      · rfl
      · rw [List.filter_eq_nil_iff]
        intro m hm
        obtain ⟨c, _, hc⟩ := List.mem_map.mp hm
        rw [← hc]
        simp [isEventMark]
      · rfl

theorem unloadScript_serial (st : EngineState) (name : String) :
    serialCalls (unloadScript st name).2 = true := by
  cases hlk : lookupStr st.scripts name with
  | none => simp [unloadScript, hlk, serialCalls, serialCallsFrom]
  | some s =>
      rw [unloadScript_eq_of_some st name s hlk]
      apply serialCalls_append
      · cases s.onUnload <;>
          simp [serialCalls, serialCallsFrom, callLuaFunction]
      · apply serialCalls_append
        · rfl
        · apply serialCalls_append
          · unfold serialCalls
            have hnc : ∀ m ∈ s.commands.map Mark.removedCommand,
                isCallMark m = false := by
              intro m hm
              obtain ⟨c, _, hc⟩ := List.mem_map.mp hm
              rw [← hc]
              rfl
            rw [serialCallsFrom_no_calls _ none hnc]
            rfl
          · rfl

theorem dispatch_no_eventMarks (load : LoadAction)
    (hL : ∀ st2 p, eventMarks (load st2 p).2 = [])
    (e : Event) (st : EngineState) :
    eventMarks (Event.dispatch load e st).2 = [] := by
  cases e with
  | botEvent t data => exact eventMarks_hook_blocks data t (hooksFor st t)
  | timerEvent id data cb => rfl
  | commandEvent n data cb => rfl
  | scriptEvent a n =>
      simp only [Event.dispatch, scriptEventDispatch]
      split
      · exact unloadScript_no_eventMarks st n
      · simp only [reloadScript]
        rw [eventMarks_append, unloadScript_no_eventMarks, hL]
        rfl
      · rfl

theorem dispatch_serial (load : LoadAction)
    (hL : ∀ st2 p, serialCalls (load st2 p).2 = true)
    (e : Event) (st : EngineState) :
    serialCalls (Event.dispatch load e st).2 = true := by
  cases e with
  | botEvent t data => exact serialCalls_hook_blocks data t (hooksFor st t)
  | timerEvent id data cb =>
      simp [Event.dispatch, serialCalls, serialCallsFrom, callLuaFunction]
  | commandEvent n data cb =>
      simp [Event.dispatch, serialCalls, serialCallsFrom, callLuaFunction]
  | scriptEvent a n =>
      simp only [Event.dispatch, scriptEventDispatch]
      split
      · exact unloadScript_serial st n
      · simp only [reloadScript]
        exact serialCalls_append _ _ (unloadScript_serial st _) (hL _ _)
      · rfl

/-- C2: the dispatcher loop consumes the queue in FIFO order: its
dispatcher-level trace is exactly start-then-end for each event in
arrival order, so every dispatch completes before the next begins and
nothing is reordered; and the callback marks of the whole run are
strictly serial, so no two callbacks ever execute concurrently.
Hypotheses: the external load action (file read plus top-level script
execution, which runs on the dispatcher goroutine) spawns no
dispatcher iterations of its own and performs its calls serially. -/
theorem C2_dispatcher_fifo_serial (load : LoadAction)
    (hL1 : ∀ st2 p, eventMarks (load st2 p).2 = [])
    (hL2 : ∀ st2 p, serialCalls (load st2 p).2 = true)
    (st : EngineState) (es : List Event) :
    eventMarks (dispatcher load st es).2 =
      es.flatMap (fun e => [Mark.eventStart e, Mark.eventEnd e]) ∧
    serialCalls (dispatcher load st es).2 = true := by
  induction es generalizing st with
  | nil => exact ⟨rfl, rfl⟩
  | cons e rest ih =>
      simp only [dispatcher]
      constructor
      · rw [List.flatMap_cons, eventMarks_append, eventMarks_append,
          eventMarks_append, dispatch_no_eventMarks load hL1 e st,
          (ih _).1]
        rfl
      · apply serialCalls_append
        · apply serialCalls_append
          · apply serialCalls_append
            · rfl
            · exact dispatch_serial load hL2 e st
          · rfl
        · exact (ih _).2

/-- C2 witness: a two-event queue dispatched against a state with one
registered hook, under the trivial load action. -/
theorem C2_dispatcher_fifo_serial_witness :
    eventMarks (dispatcher noopLoad c2State c2Events).2 =
      c2Events.flatMap (fun e => [Mark.eventStart e, Mark.eventEnd e]) ∧
    serialCalls (dispatcher noopLoad c2State c2Events).2 = true :=
  C2_dispatcher_fifo_serial noopLoad (fun _ _ => rfl) (fun _ _ => rfl)
    c2State c2Events

end DiscordBot
